import Mathlib

/-!
Verification of the message-splitting and view-building logic of the
evaluation-dataset scripts (`export_thread_to_eval_jsonl.py` and
`postprocess_evaluation_jsonl.py`).

The scripts manipulate parsed JSON values (Python dicts/lists/strings), so the
embedding works over a `Json` inductive mirroring the Python JSON data model.
Python `dict.get` on a non-dict raises; the embedding models the lookup as
yielding the default, since all call sites only receive parsed JSON records.
-/

/-- A parsed JSON value, as the Python scripts see it after `json.loads`.
Numbers are modelled as integers; no claim involves floats.  Objects are
association lists in insertion order (Python dicts preserve insertion order). -/
inductive Json where
  | null
  | bool (b : Bool)
  | num (n : Int)
  | str (s : String)
  | arr (items : List Json)
  | obj (fields : List (String × Json))

/-- Python truthiness of a JSON value: `None`, `False`, `0`, `""`, `[]`
and an empty dict are falsy, everything else is truthy. -/
def Json.truthy : Json → Bool
  | .null => false
  | .bool b => b
  | .num n => n != 0
  | .str s => s != ""
  | .arr xs => !xs.isEmpty
  | .obj fs => !fs.isEmpty

/-- Field lookup in a JSON object; `none` when the key is absent or the value
is not an object (the Python `dict.get` would raise on a non-dict; the scripts
only call it on parsed records). -/
def Json.lookup : Json → String → Option Json
  | .obj fields, key => List.lookup key fields
  | _, _ => none

/-- Embedding of `d.get(key, default)` and of `d.get(key)` (with the default `Json.null`). -/
def Json.getD (j : Json) (key : String) (d : Json) : Json :=
  (j.lookup key).getD d

def Json.isObj : Json → Bool
  | .obj _ => true
  | _ => false

def Json.isArr : Json → Bool
  | .arr _ => true
  | _ => false

/-- Python `x == "lit"` for a JSON value: true exactly when `x` is that string. -/
def Json.eqStr : Json → String → Bool
  | .str s, t => s == t
  | _, _ => false

/-- Embedding of the Python `a or b` on JSON values (truthiness-based). -/
def Json.pyOr (a b : Json) : Json :=
  if a.truthy then a else b

/-- Truthiness of a Python variable holding either `None` or a JSON value. -/
def optTruthy : Option Json → Bool
  | none => false
  | some j => j.truthy

/-! ## Query/response partitioner (`export_thread_to_eval_jsonl.py`, lines 75-98) -/

/-- The loop of `split_query_and_response`: `seen` is the `seen_assistant`
flag; a message goes to the query while the flag is unset and its role is not
`assistant`, otherwise the flag is set and the message goes to the response. -/
def sqrGo (seen : Bool) : List Json → List Json × List Json
  | [] => ([], [])
  | msg :: rest =>
    if !seen && !((msg.getD ("role") .null).eqStr ("assistant")) then
      let p := sqrGo seen rest
      (msg :: p.1, p.2)
    else
      let p := sqrGo true rest
      (p.1, msg :: p.2)

/-- Embedding of `split_query_and_response(messages)`: the `(query, response)` pair. -/
def split_query_and_response (messages : List Json) : List Json × List Json :=
  sqrGo false messages

/-- A message whose `role` field is the string `assistant`. -/
def roleIsAssistant (m : Json) : Bool :=
  (m.getD ("role") .null).eqStr ("assistant")

/-! ## Last-text extractor (`postprocess_evaluation_jsonl.py`, lines 20-36 and 49-65)

`_extract_last_user_text` and `_extract_last_assistant_text` are textually
identical except for the target role; they are embedded as instances of one
role-parameterised function. -/

/-- The inner `for part in content` loop: return the `text` value of the first
part that is a dict with `type == "text"` and a truthy `text`, in forward
order.  A `text`-typed part with a falsy text does not stop the scan. -/
def firstTextIn : List Json → Option Json
  | [] => none
  | part :: rest =>
    if part.isObj && (part.getD ("type") .null).eqStr ("text") then
      let text := part.getD ("text") .null
      if text.truthy then some text else firstTextIn rest
    else firstTextIn rest

/-- One iteration of the `for m in reversed(messages)` loop: the text the
extractor derives from a single message `m` for the target `role`, or `none`
when the loop would `continue` past `m` (non-dict, role mismatch, content of
an unexpected type, or a parts list with no truthy text part).  A matching
message with plain-string content always yields that string, even when empty. -/
def msgText (role : String) (m : Json) : Option Json :=
  if !m.isObj then none
  else if !(m.getD ("role") .null).eqStr role then none
  else
    match m.getD ("content") .null with
    | .str s => some (.str s)
    | .arr parts => firstTextIn parts
    | _ => none

/-- The reversed-scan loop body: first message (of the already-reversed list)
that yields a text wins. -/
def extractAux (role : String) : List Json → Option Json
  | [] => none
  | m :: rest =>
    match msgText role m with
    | some t => some t
    | none => extractAux role rest

/-- Role-parameterised form of the two extractors: scan `messages` from the
end for the last message of the given role carrying a text. -/
def extract_last_role_text (role : String) (messages : List Json) : Option Json :=
  extractAux role messages.reverse

/-- Embedding of the source function for the last user text in a message list. -/
def extract_last_user_text (messages : List Json) : Option Json :=
  extract_last_role_text ("user") messages

/-- Embedding of the source function for the last assistant text in a message list. -/
def extract_last_assistant_text (messages : List Json) : Option Json :=
  extract_last_role_text ("assistant") messages

/-- Embedding of the last-user-query helper (lines 39-46): a string `query` field is returned
verbatim, a list `query` field goes through the last-user-text extractor. -/
def last_user_query (item : Json) : Option Json :=
  match item.getD ("query") .null with
  | .str s => some (.str s)
  | .arr msgs => extract_last_user_text msgs
  | _ => none

/-- Embedding of the final-assistant-response helper (lines 68-75). -/
def final_assistant_response (item : Json) : Option Json :=
  match item.getD ("response") .null with
  | .str s => some (.str s)
  | .arr msgs => extract_last_assistant_text msgs
  | _ => none

/-! ## JSON serialization (`json.dumps(..., ensure_ascii=False)`) -/

/-- Escape of one character inside a JSON string literal, as `json.dumps`
produces it with `ensure_ascii=False` (only the mandatory escapes matter for
the data of these scripts; other control characters do not occur in the claims). -/
def escapeChar (c : Char) : String :=
  if c = '"' then ("\\\"")
  else if c = '\\' then ("\\\\")
  else if c = '\n' then ("\\n")
  else if c = '\t' then ("\\t")
  else if c = '\r' then ("\\r")
  else String.singleton c

def escapeString (s : String) : String :=
  String.join (s.toList.map escapeChar)

mutual

/-- Embedding of `json.dumps(j, ensure_ascii=False)` with the default separators. -/
def Json.dumps : Json → String
  | .null => "null"
  | .bool b => if b then ("true") else ("false")
  | .num n => toString n
  | .str s => "\"" ++ escapeString s ++ "\""
  | .arr xs => "[" ++ dumpsItems xs ++ "]"
  | .obj fs => "\x7b" ++ dumpsFields fs ++ "\x7d"

def dumpsItems : List Json → String
  | [] => ""
  | [x] => Json.dumps x
  | x :: y :: xs => Json.dumps x ++ ", " ++ dumpsItems (y :: xs)

def dumpsFields : List (String × Json) → String
  | [] => ""
  | [(k, v)] => "\"" ++ escapeString k ++ "\": " ++ Json.dumps v
  | (k, v) :: kv :: kvs =>
    "\"" ++ escapeString k ++ "\": " ++ Json.dumps v ++ ", " ++ dumpsFields (kv :: kvs)

end

/-- Python `str()` of a JSON value, as used on the `text` entries of explicit
context fields and on `file_name`.  For strings it is the identity — the only
case the claims exercise; for the scalar constants it matches Python, and for
containers the Python repr is approximated by the JSON rendering. -/
def Json.pyStr : Json → String
  | .str s => s
  | .null => "None"
  | .bool b => if b then ("True") else ("False")
  | .num n => toString n
  | j => j.dumps

/-! ## Tool definition / tool call slimming (lines 78-109) -/

/-- The allowed keys of a slimmed tool definition, in the set the source uses. -/
def allowedDefKeys : List String :=
  [("name"), ("type"), ("description"), ("parameters"), ("operationId")]

/-- Embedding of the tool-definition slimmer: keep only the allowed keys of each dict
entry of `tool_definitions` (or, when falsy, `tools`); drop empty entries;
`None` when the field is not a list or nothing survives. -/
def slim_tool_definitions (item : Json) : Option (List Json) :=
  match (item.getD ("tool_definitions") .null).pyOr (item.getD ("tools") .null) with
  | .arr tools =>
    let slim := tools.filterMap (fun t =>
      match t with
      | .obj fields =>
        let entry := fields.filter (fun kv => allowedDefKeys.contains kv.1)
        if entry.isEmpty then none else some (Json.obj entry)
      | _ => none)
    if slim.isEmpty then none else some slim
  | _ => none

/-- Embedding of the tool-call slimmer: keep only `name` and `arguments` (in that order)
of each dict entry of `tool_calls` (or `tools_called`). -/
def slim_tool_calls (item : Json) : Option (List Json) :=
  match (item.getD ("tool_calls") .null).pyOr (item.getD ("tools_called") .null) with
  | .arr calls =>
    let slim := calls.filterMap (fun c =>
      match c with
      | .obj fields =>
        let entry := ([("name"), ("arguments")].filter
          (fun k => (List.lookup k fields).isSome)).map
          (fun k => (k, (Json.obj fields).getD k .null))
        if entry.isEmpty then none else some (Json.obj entry)
      | _ => none)
    if slim.isEmpty then none else some slim
  | _ => none

/-! ## Context extraction from tool results (lines 112-181)

The four nested `for` loops of `_extract_context_from_messages` are embedded
level by level: each level computes the snippets its iteration contributes, and
the early `return` on reaching `max_contexts` is the capped accumulation at the
end (`addSnippets` / `extractLoop` append one snippet at a time and stop as
soon as the count reaches the cap, exactly where the source checks
`len(contexts) >= max_contexts` after each append). -/

/-- Embedding of the Python `str.strip()`: drop leading and trailing whitespace. -/
def pyStrip (s : String) : String :=
  ((s.toList.dropWhile Char.isWhitespace).reverse.dropWhile Char.isWhitespace).reverse.asString

/-- Embedding of the Python slice `s[:n]`: the first `n` characters. -/
def pySlice (s : String) (n : Nat) : String :=
  (s.toList.take n).asString

/-- The innermost loop body (lines 159-176): the snippet one content fragment
of a tool result contributes, given the `file_name` of the enclosing result.
Skips non-dict fragments and falsy texts; trims, prefixes the source line
when a file name is present, and truncates to `L` characters plus `"..."`
when longer.  (For a truthy non-string `text` the Python raises; such values
are outside the modelled domain.) -/
def snippetOf (file_name : Json) (content_part : Json) (L : Nat) : Option String :=
  if !content_part.isObj then none
  else
    match content_part.getD ("text") (.str ("")) with
    | .str s =>
      if s == "" then none
      else
        let entry := pyStrip s
        let entry :=
          if file_name.truthy then ("[Source: " ++ file_name.pyStr ++ "]\n" ++ entry)
          else entry
        some (if entry.length > L then pySlice entry L ++ "..." else entry)
    | _ => none

/-- Lines 148-176: the snippets one entry of a `tool_result` list contributes
(its `file_name` plus its `content` fragments). -/
def resultSnippets (result : Json) (L : Nat) : List String :=
  match result with
  | .obj _ =>
    let file_name := result.getD ("file_name") (.str (""))
    match result.getD ("content") .null with
    | .arr parts => parts.filterMap (fun p => snippetOf file_name p L)
    | _ => []
  | _ => []

/-- Lines 135-176: the snippets one content part of a tool message contributes
(only dict parts of type `tool_result` with a list `tool_result` field). -/
def partSnippets (part : Json) (L : Nat) : List String :=
  if part.isObj && (part.getD ("type") .null).eqStr ("tool_result") then
    match part.getD ("tool_result") .null with
    | .arr results => results.flatMap (fun r => resultSnippets r L)
    | _ => []
  else []

/-- Lines 123-176: the snippets one message contributes (only dict messages of
role `tool` with list content). -/
def messageSnippets (m : Json) (L : Nat) : List String :=
  if m.isObj && (m.getD ("role") .null).eqStr ("tool") then
    match m.getD ("content") .null with
    | .arr parts => parts.flatMap (fun p => partSnippets p L)
    | _ => []
  else []

/-- Append snippets one at a time onto the accumulator, returning as soon as
its length reaches `k` — the `contexts.append(...)` followed by the
`len(contexts) >= max_contexts` early return. -/
def addSnippets (k : Nat) (acc : List String) : List String → List String
  | [] => acc
  | s :: rest =>
    let acc2 := acc ++ [s]
    if k ≤ acc2.length then acc2 else addSnippets k acc2 rest

/-- The outer message loop with the early return threaded through. -/
def extractLoop (k L : Nat) (acc : List String) : List Json → List String
  | [] => acc
  | m :: ms =>
    let acc2 := addSnippets k acc (messageSnippets m L)
    if k ≤ acc2.length then acc2 else extractLoop k L acc2 ms

/-- Embedding of the source context extractor over a message list. -/
def extract_context_from_messages (messages : List Json) (max_contexts L : Nat) :
    List String :=
  extractLoop max_contexts L [] messages

/-- Specification-side notion for the count claims: every snippet the
traversal of `_extract_context_from_messages` could ever emit from the input,
in traversal order, with no cap — the snippets "available in the input". -/
def allAvailableSnippets (messages : List Json) (L : Nat) : List String :=
  messages.flatMap (fun m => messageSnippets m L)

/-! ## Explicit context fields and fallback (lines 184-230) -/

/-- The per-entry body of the list-candidate loop of `_collect_context`:
a string entry is kept as is, a dict entry with a `text` key contributes the
`str()` of its text, everything else is skipped. -/
def candidateText : Json → Option String
  | .str s => some s
  | .obj fields =>
    if (List.lookup ("text") fields).isSome then
      some ((Json.obj fields).getD ("text") .null).pyStr
    else none
  | _ => none

/-- The candidate loop of `_collect_context`: skip falsy candidates; a string
candidate yields itself as a one-element list; a list candidate yields its
texts of its entries via `candidateText` (or `None` when that leaves nothing);
candidates of any other truthy type fall through to the next candidate. -/
def collectLoop : List Json → Option (List String)
  | [] => none
  | c :: rest =>
    if !c.truthy then collectLoop rest
    else
      match c with
      | .str s => some [s]
      | .arr vs =>
        let texts := vs.filterMap candidateText
        if texts.isEmpty then none else some texts
      | _ => collectLoop rest

/-- The explicit-context candidates of an item, in the priority
order: `context`, `retrieved_context`, `evidence`, `citations`. -/
def contextCandidates (item : Json) : List Json :=
  [item.getD ("context") .null,
   item.getD ("retrieved_context") .null,
   item.getD ("evidence") .null,
   item.getD ("citations") .null]

/-- Embedding of the explicit-context collector. -/
def collect_context (item : Json) : Option (List String) :=
  collectLoop (contextCandidates item)

/-- Embedding of the tool-result context builder:
scan the `query` message list first, then — only when still under the cap —
the `response` message list with the remaining budget. -/
def build_context_from_tool_results (item : Json) (max_contexts L : Nat) :
    Option (List String) :=
  let contexts : List String :=
    match item.getD ("query") .null with
    | .arr q => extract_context_from_messages q max_contexts L
    | _ => []
  let contexts : List String :=
    if contexts.length < max_contexts then
      match item.getD ("response") .null with
      | .arr r => contexts ++ extract_context_from_messages r (max_contexts - contexts.length) L
      | _ => contexts
    else contexts
  if contexts.isEmpty then none else some contexts

/-- Embedding of the ground-truth resolver (lines 233-238). -/
def get_ground_truth (item : Json) : Option String :=
  match (item.getD ("ground_truth") .null).pyOr (item.getD ("reference_answer") .null) with
  | .str s => some s
  | _ => none

/-- Embedding of the document ground-truth and retrieved-documents resolver (lines 241-250). -/
def get_doc_gt_and_retrieved (item : Json) : Option (List (String × Json)) :=
  match (item.getD ("ground_truth_documents") .null).pyOr (item.getD ("labels") .null),
        (item.getD ("retrieved_documents") .null).pyOr (item.getD ("documents") .null) with
  | .arr g, .arr r =>
    some [(("ground_truth_documents"), Json.arr g), (("retrieved_documents"), Json.arr r)]
  | _, _ => none

/-! ## Per-record view building (`postprocess`, lines 276-357)

`postprocess` maps each input record independently onto at most one row per
view; the embedding captures that per-record computation.  I/O (reading the
JSONL file and writing the per-view files) is not modelled. -/

/-- Lines 281 and 292-293: the `query` variable after the dict fallback — when
the extracted query is falsy and the `query` field of the record is a dict, its
JSON serialization is used instead. -/
def queryOf (item : Json) : Option Json :=
  let q := last_user_query item
  if !optTruthy q && (item.getD ("query") .null).isObj then
    some (.str (item.getD ("query") .null).dumps)
  else q

/-- Lines 314-330: the RAG `context` value — the explicit fields first, tool
results only when those produced nothing and the snippet budget is positive. -/
def ragContextOf (item : Json) (rag_snippets_k L : Nat) : Option (List String) :=
  let context := collect_context item
  let ctxFalsy := match context with | none => true | some l => l.isEmpty
  if ctxFalsy && 0 < rag_snippets_k then
    build_context_from_tool_results item rag_snippets_k L
  else context

/-- The five optional rows one input record contributes, one per view. -/
structure ItemRows where
  general : Option Json
  agent : Option Json
  rag : Option Json
  docret : Option Json
  respcomp : Option Json

/-- A `(key, value)` field when the optional value is not `None` (the
`if v is not None` dict comprehension filter). -/
def optField (key : String) : Option Json → List (String × Json)
  | some v => [(key, v)]
  | none => []

/-- The `query`/`response` fields shared by the General Q&A row and the
agent row (the `if v is not None` dict comprehension of lines 297-299 and
304-306). -/
def baseFields (item : Json) : List (String × Json) :=
  optField ("query") (queryOf item) ++ optField ("response") (final_assistant_response item)

/-- The `tool_definitions` field the agent row receives when the slimmed
definitions are truthy (lines 307-308). -/
def toolDefsField (item : Json) : List (String × Json) :=
  match slim_tool_definitions item with
  | some l => if l.isEmpty then [] else [(("tool_definitions"), Json.arr l)]
  | none => []

/-- The `tool_calls` field the agent row receives when the slimmed calls are
truthy (lines 309-310). -/
def toolCallsField (item : Json) : List (String × Json) :=
  match slim_tool_calls item with
  | some l => if l.isEmpty then [] else [(("tool_calls"), Json.arr l)]
  | none => []

/-- The body of the `for idx, item in enumerate(_read_jsonl(input_path))`
loop: the rows the record `item` appends to the five per-view collections. -/
def processItem (item : Json) (rag_snippets_k L : Nat) : ItemRows :=
  let query := queryOf item
  let response := final_assistant_response item
  let general := if optTruthy query || optTruthy response
                 then some (Json.obj (baseFields item)) else none
  let agentFields := baseFields item ++ toolDefsField item ++ toolCallsField item
  let agent := if agentFields.isEmpty then none else some (Json.obj agentFields)
  let context := ragContextOf item rag_snippets_k L
  let rag :=
    match context, query, response with
    | some ctx, some q, some r =>
      if !ctx.isEmpty && q.truthy && r.truthy then
        some (Json.obj [(("query"), q), (("response"), r),
                        (("context"), Json.arr (ctx.map Json.str))])
      else none
    | _, _, _ => none
  let docret :=
    match get_doc_gt_and_retrieved item with
    | some dr => some (Json.obj (optField ("query") query ++ dr))
    | none => none
  let respcomp :=
    match get_ground_truth item, response with
    | some gt, some r =>
      if gt != "" && r.truthy then
        some (Json.obj [(("query"), query.getD .null), (("response"), r),
                        (("ground_truth"), .str gt)])
      else none
    | _, _ => none
  { general := general, agent := agent, rag := rag, docret := docret, respcomp := respcomp }

/-! ## Specification-side notions (from the wording of the spec, for comparison) -/

/-- A content part that is a dict of type `text` carrying a non-empty text. -/
def isTextPart (p : Json) : Bool :=
  p.isObj && (p.getD ("type") .null).eqStr ("text") && (p.getD ("text") .null).truthy

/-- The text of the first text part of a parts list, per the extractor. -/
def firstTextPartSpec (ps : List Json) : Option Json :=
  (ps.find? isTextPart).map (fun p => p.getD ("text") .null)

/-- The claimed "text field of the last part whose type is text and
whose text is non-empty". -/
def lastTextPartSpec (ps : List Json) : Option Json :=
  firstTextPartSpec ps.reverse

/-- Recogniser for plain JSON strings. -/
def isStrJson : Json → Bool
  | .str _ => true
  | _ => false

/-- The string a plain JSON string entry contributes, nothing otherwise. -/
def strOnly : Json → Option String
  | .str s => some s
  | _ => none

/-- An explicit-context candidate value of a shape the data model describes:
a string, a list of strings, or anything falsy. -/
def goodCandidate : Json → Bool
  | .str _ => true
  | .arr l => l.all isStrJson
  | j => !j.truthy

/-- The context a winning explicit candidate yields, per the spec: a string
stands alone, a list contributes its string entries. -/
def normCand : Json → Option (List String)
  | .str s => some [s]
  | .arr l => some (l.filterMap strOnly)
  | _ => none

/-- The message list the `query` field holds, when it is a list. -/
def queryMessages (item : Json) : List Json :=
  match item.getD ("query") .null with
  | .arr q => q
  | _ => []

/-- The message list the `response` field holds, when it is a list. -/
def responseMessages (item : Json) : List Json :=
  match item.getD ("response") .null with
  | .arr r => r
  | _ => []

/-! ## Concrete inputs for counterexamples and witnesses -/

/-- A text content part with the given text. -/
def textPartJson (t : String) : Json :=
  Json.obj [(("type"), Json.str ("text")), (("text"), Json.str t)]

/-- A user message with plain string content. -/
def userMsgJson (t : String) : Json :=
  Json.obj [(("role"), Json.str ("user")), (("content"), Json.str t)]

/-- An assistant message with plain string content. -/
def asstMsgJson (t : String) : Json :=
  Json.obj [(("role"), Json.str ("assistant")), (("content"), Json.str t)]

/-- A user message with two non-empty text parts, `a` then `b`. -/
def twoPartUserMsg : Json :=
  Json.obj [(("role"), Json.str ("user")),
            (("content"), Json.arr [textPartJson ("a"), textPartJson ("b")])]

/-- A record carrying only tool definitions: no query, no response. -/
def toolDefsOnlyItem : Json :=
  Json.obj [(("tool_definitions"),
             Json.arr [Json.obj [(("name"), Json.str ("lookup"))]])]

/-- A message that is a dict whose `role` field equals the given role. -/
def isRoleMsg (role : String) (m : Json) : Bool :=
  m.isObj && (m.getD ("role") .null).eqStr role

/-- A tool-role message with no content at all. -/
def toolRoleMsg : Json :=
  Json.obj [(("role"), Json.str ("tool"))]

/-- A text fragment of a tool-result entry. -/
def fragJson (t : String) : Json :=
  Json.obj [(("text"), Json.str t)]

/-- A tool message holding one `tool_result` part with one file entry whose
content is the given list of text fragments. -/
def toolResultMsgJson (fn : String) (ts : List String) : Json :=
  Json.obj
    [(("role"), Json.str ("tool")),
     (("content"),
      Json.arr [Json.obj
        [(("type"), Json.str ("tool_result")),
         (("tool_result"),
          Json.arr [Json.obj [(("file_name"), Json.str fn),
                              (("content"), Json.arr (ts.map fragJson))]])]])]

/-- A record with an explicit string `context` field. -/
def ctxItemJson : Json :=
  Json.obj [(("context"), Json.str ("ctx"))]

/-- A record holding only a response string. -/
def respOnlyItem : Json :=
  Json.obj [(("response"), Json.str ("ok"))]

/-- A record whose `query` field is a dict and yields no extracted text. -/
def dictQueryItem : Json :=
  Json.obj [(("query"), Json.obj [(("a"), Json.str ("b"))])]

/-- A 101-character string, for the truncation witness with limit 1. -/
def longText : String :=
  String.mk (List.replicate 101 'a')

theorem sqrGo_true (msgs : List Json) : sqrGo true msgs = ([], msgs) := by
  induction msgs with
  | nil => rfl
  | cons m rest ih => simp [sqrGo, ih]

theorem sqrGo_false (msgs : List Json) :
    sqrGo false msgs =
      (msgs.takeWhile (fun m => !roleIsAssistant m),
       msgs.dropWhile (fun m => !roleIsAssistant m)) := by
  induction msgs with
  | nil => rfl
  | cons m rest ih =>
    simp only [sqrGo, Bool.not_false, Bool.true_and]
    have hr : (m.getD ("role") Json.null).eqStr ("assistant") = roleIsAssistant m := rfl
    rw [hr, List.takeWhile_cons, List.dropWhile_cons]
    by_cases h : roleIsAssistant m
    · simp [h, sqrGo_true]
    · simp [h, ih]

/-- C1: `split_query_and_response` yields the maximal prefix of messages whose
role is not `assistant` as the query, everything from the first assistant
message onward as the response, and when no assistant message exists the query
is the whole input and the response is empty. -/
theorem split_partitions_at_first_assistant (msgs : List Json) :
    (split_query_and_response msgs).1 =
        msgs.takeWhile (fun m => !roleIsAssistant m) ∧
    (split_query_and_response msgs).2 =
        msgs.dropWhile (fun m => !roleIsAssistant m) ∧
    ((∀ m ∈ msgs, roleIsAssistant m = false) →
      (split_query_and_response msgs).1 = msgs ∧
      (split_query_and_response msgs).2 = []) := by
  unfold split_query_and_response
  rw [sqrGo_false]
  refine ⟨rfl, rfl, fun h => ⟨?_, ?_⟩⟩
  · rw [List.takeWhile_eq_self_iff]
    intro m hm
    simp [h m hm]
  · rw [List.dropWhile_eq_nil_iff]
    intro m hm
    simp [h m hm]

/-- Witness for C1 at a concrete assistant-free sequence. -/
theorem split_partitions_at_first_assistant_w :
    (∀ m ∈ [userMsgJson ("hi")], roleIsAssistant m = false) ∧
    ((split_query_and_response [userMsgJson ("hi")]).1 = [userMsgJson ("hi")] ∧
     (split_query_and_response [userMsgJson ("hi")]).2 = []) := by
  have hall : ∀ m ∈ [userMsgJson ("hi")], roleIsAssistant m = false := by
    intro m hm
    rw [List.mem_singleton] at hm
    subst hm
    rfl
  exact ⟨hall, (split_partitions_at_first_assistant [userMsgJson ("hi")]).2.2 hall⟩

/-- C7: the partition is lossless — the two outputs concatenate back to the
original sequence (so nothing is duplicated or dropped and the split is
exhaustive and disjoint), and the empty input yields two empty outputs. -/
theorem split_concat_is_input (msgs : List Json) :
    (split_query_and_response msgs).1 ++ (split_query_and_response msgs).2 = msgs ∧
    split_query_and_response [] = ([], []) := by
  constructor
  · unfold split_query_and_response
    rw [sqrGo_false]
    exact List.takeWhile_append_dropWhile (fun m => !roleIsAssistant m) msgs
  · rfl

/-! ## Lemmas about the last-text extractor -/

theorem extractAux_append (role : String) (a b : List Json) :
    extractAux role (a ++ b) =
      match extractAux role a with
      | some t => some t
      | none => extractAux role b := by
  induction a with
  | nil => rfl
  | cons m rest ih =>
    simp only [List.cons_append, extractAux]
    cases msgText role m <;> simp [ih]

theorem extractAux_none (role : String) (l : List Json)
    (h : ∀ m ∈ l, msgText role m = none) : extractAux role l = none := by
  induction l with
  | nil => rfl
  | cons m rest ih =>
    simp only [extractAux]
    rw [h m (by simp)]
    exact ih (fun x hx => h x (by simp [hx]))

theorem extract_append_no_text (role : String) (xs ys : List Json)
    (h : ∀ y ∈ ys, msgText role y = none) :
    extract_last_role_text role (xs ++ ys) = extract_last_role_text role xs := by
  unfold extract_last_role_text
  rw [List.reverse_append, extractAux_append,
      extractAux_none role ys.reverse (fun m hm => h m (List.mem_reverse.mp hm))]

theorem msgText_none_of_not_role (role : String) (y : Json)
    (h : isRoleMsg role y = false) : msgText role y = none := by
  unfold isRoleMsg at h
  unfold msgText
  by_cases h1 : y.isObj
  · simp [h1] at h
    simp [h1, h]
  · simp [h1]

theorem firstTextIn_eq_spec (ps : List Json) :
    firstTextIn ps = firstTextPartSpec ps := by
  induction ps with
  | nil => rfl
  | cons p rest ih =>
    by_cases h1 : p.isObj && (p.getD ("type") Json.null).eqStr ("text")
    · by_cases h2 : (p.getD ("text") Json.null).truthy
      · have ht : isTextPart p = true := by
          simp [isTextPart, h1, h2]
        simp only [firstTextIn, firstTextPartSpec]
        rw [List.find?_cons_of_pos _ ht]
        simp [h1, h2]
      · have ht : isTextPart p = false := by
          simp [isTextPart, h1, h2]
        simp only [firstTextIn, firstTextPartSpec]
        rw [List.find?_cons_of_neg _ (by simp [ht])]
        simp only [h1, if_true, h2]
        simp [ih, firstTextPartSpec, h2]
    · have ht : isTextPart p = false := by
        simp [isTextPart, h1]
      simp only [firstTextIn, firstTextPartSpec]
      rw [List.find?_cons_of_neg _ (by simp [ht])]
      simp [h1, ih, firstTextPartSpec]

theorem extract_last_role_clauses (role : String) (pre post : List Json) (m : Json)
    (hpost : ∀ y ∈ post, isRoleMsg role y = false) (hm : isRoleMsg role m = true) :
    (∀ s, m.getD ("content") .null = .str s →
       extract_last_role_text role (pre ++ m :: post) = some (.str s)) ∧
    (∀ ps t, m.getD ("content") .null = .arr ps → firstTextPartSpec ps = some t →
       extract_last_role_text role (pre ++ m :: post) = some t) := by
  have hsplit : pre ++ m :: post = (pre ++ [m]) ++ post := by simp
  have hpost2 : extract_last_role_text role ((pre ++ [m]) ++ post) =
      extract_last_role_text role (pre ++ [m]) :=
    extract_append_no_text role (pre ++ [m]) post
      (fun y hy => msgText_none_of_not_role role y (hpost y hy))
  have hrev : extract_last_role_text role (pre ++ [m]) =
      match msgText role m with
      | some t => some t
      | none => extractAux role pre.reverse := by
    unfold extract_last_role_text
    rw [List.reverse_append]
    rfl
  have hobj : m.isObj = true := by
    unfold isRoleMsg at hm
    exact (Bool.and_eq_true_iff.mp hm).1
  have hrole : (m.getD ("role") .null).eqStr role = true := by
    unfold isRoleMsg at hm
    exact (Bool.and_eq_true_iff.mp hm).2
  constructor
  · intro s hs
    rw [hsplit, hpost2, hrev]
    unfold msgText
    rw [hobj, hrole, hs]
    rfl
  · intro ps t hps hfind
    rw [hsplit, hpost2, hrev]
    unfold msgText
    rw [hobj, hrole, hps]
    simp only [Bool.not_true, Bool.false_eq_true, if_false, ite_false]
    rw [firstTextIn_eq_spec, hfind]

/-- C2 counterexample: on a user message whose content holds two non-empty
text parts `a` then `b`, the extractor returns the text `a` of the first part,
while the claimed "text field of the last part whose type is text and whose
text is non-empty" is `b`. -/
theorem extract_text_not_last_part_cex :
    extract_last_user_text [twoPartUserMsg] = some (Json.str ("a")) ∧
    lastTextPartSpec [textPartJson ("a"), textPartJson ("b")] = some (Json.str ("b")) ∧
    extract_last_user_text [twoPartUserMsg] ≠
      lastTextPartSpec [textPartJson ("a"), textPartJson ("b")] := by
  have h1 : extract_last_user_text [twoPartUserMsg] = some (Json.str ("a")) := rfl
  have h2 : lastTextPartSpec [textPartJson ("a"), textPartJson ("b")] =
      some (Json.str ("b")) := rfl
  refine ⟨h1, h2, ?_⟩
  rw [h1, h2]
  simp

/-- C2 (amended): the extractors return the text of the last message of the
target role — verbatim when the content of that message is a plain string, and the
text of the *first* part whose type is `text` and whose text is non-empty
(forward order) when the content is a list of parts — and an absence signal
when no message yields a text; symmetrically for role `user` and role
`assistant`. -/
theorem extract_last_text_first_text_part (pre post msgs : List Json) (m : Json) :
    ((∀ y ∈ post, isRoleMsg ("user") y = false) → isRoleMsg ("user") m = true →
      (∀ s, m.getD ("content") .null = .str s →
        extract_last_user_text (pre ++ m :: post) = some (.str s)) ∧
      (∀ ps t, m.getD ("content") .null = .arr ps → firstTextPartSpec ps = some t →
        extract_last_user_text (pre ++ m :: post) = some t)) ∧
    ((∀ y ∈ msgs, msgText ("user") y = none) → extract_last_user_text msgs = none) ∧
    ((∀ y ∈ post, isRoleMsg ("assistant") y = false) → isRoleMsg ("assistant") m = true →
      (∀ s, m.getD ("content") .null = .str s →
        extract_last_assistant_text (pre ++ m :: post) = some (.str s)) ∧
      (∀ ps t, m.getD ("content") .null = .arr ps → firstTextPartSpec ps = some t →
        extract_last_assistant_text (pre ++ m :: post) = some t)) ∧
    ((∀ y ∈ msgs, msgText ("assistant") y = none) →
      extract_last_assistant_text msgs = none) := by
  refine ⟨fun hpost hm => ?_, fun h => ?_, fun hpost hm => ?_, fun h => ?_⟩
  · exact extract_last_role_clauses ("user") pre post m hpost hm
  · exact extractAux_none ("user") msgs.reverse
      (fun y hy => h y (List.mem_reverse.mp hy))
  · exact extract_last_role_clauses ("assistant") pre post m hpost hm
  · exact extractAux_none ("assistant") msgs.reverse
      (fun y hy => h y (List.mem_reverse.mp hy))

/-- Witness for the amended C2 at concrete inputs: a trailing user message
with string content, and a two-part assistant message. -/
theorem extract_last_text_first_text_part_w :
    ((∀ y ∈ ([] : List Json), isRoleMsg ("user") y = false) ∧
     isRoleMsg ("user") (userMsgJson ("hi")) = true ∧
     (userMsgJson ("hi")).getD ("content") .null = .str ("hi") ∧
     extract_last_user_text ([asstMsgJson ("yo")] ++ userMsgJson ("hi") :: []) =
       some (.str ("hi"))) ∧
    ((∀ y ∈ [toolRoleMsg], msgText ("assistant") y = none) ∧
     extract_last_assistant_text [toolRoleMsg] = none) := by
  have hpost : ∀ y ∈ ([] : List Json), isRoleMsg ("user") y = false := by
    intro y hy
    exact absurd hy (List.not_mem_nil y)
  have hm : isRoleMsg ("user") (userMsgJson ("hi")) = true := rfl
  have hc : (userMsgJson ("hi")).getD ("content") .null = .str ("hi") := rfl
  have hall : ∀ y ∈ [toolRoleMsg], msgText ("assistant") y = none := by
    intro y hy
    rw [List.mem_singleton] at hy
    subst hy
    rfl
  refine ⟨⟨hpost, hm, hc, ?_⟩, ⟨hall, ?_⟩⟩
  · exact ((extract_last_text_first_text_part [asstMsgJson ("yo")] [] []
      (userMsgJson ("hi"))).1 hpost hm).1 ("hi") hc
  · exact (extract_last_text_first_text_part [] [] [toolRoleMsg]
      (userMsgJson ("hi"))).2.2.2 hall

/-- C8: appending a no-text message — one from which the extractor derives no
text (wrong or missing role, non-dict, unexpected content shape, or a parts
list with no non-empty text part) — after the input leaves each of the two
results unchanged. -/
theorem extract_unchanged_by_no_text_append (msgs : List Json) (m : Json) :
    (msgText ("user") m = none →
      extract_last_user_text (msgs ++ [m]) = extract_last_user_text msgs) ∧
    (msgText ("assistant") m = none →
      extract_last_assistant_text (msgs ++ [m]) = extract_last_assistant_text msgs) := by
  constructor
  · intro h
    exact extract_append_no_text ("user") msgs [m]
      (fun y hy => by rw [List.mem_singleton] at hy; rw [hy]; exact h)
  · intro h
    exact extract_append_no_text ("assistant") msgs [m]
      (fun y hy => by rw [List.mem_singleton] at hy; rw [hy]; exact h)

/-- Witness for C8: appending a bare tool-role message after a user message
leaves the extracted user text unchanged. -/
theorem extract_unchanged_by_no_text_append_w :
    msgText ("user") toolRoleMsg = none ∧
    extract_last_user_text ([userMsgJson ("hi")] ++ [toolRoleMsg]) =
      extract_last_user_text [userMsgJson ("hi")] := by
  have h : msgText ("user") toolRoleMsg = none := rfl
  exact ⟨h, (extract_unchanged_by_no_text_append [userMsgJson ("hi")] toolRoleMsg).1 h⟩

/-! ## Lemmas about the capped snippet extraction -/

theorem addSnippets_eq (k : Nat) (l : List String) :
    ∀ acc : List String, acc.length < k →
      addSnippets k acc l = acc ++ l.take (k - acc.length) := by
  induction l with
  | nil => intro acc h; simp [addSnippets]
  | cons s rest ih =>
    intro acc h
    simp only [addSnippets]
    by_cases h2 : k ≤ (acc ++ [s]).length
    · rw [if_pos h2]
      simp only [List.length_append, List.length_singleton] at h2
      have hk1 : k - acc.length = 1 := by omega
      rw [hk1]
      simp
    · rw [if_neg h2]
      simp only [List.length_append, List.length_singleton] at h2
      rw [ih (acc ++ [s]) (by simp; omega)]
      have hk1 : k - acc.length = (k - (acc.length + 1)) + 1 := by omega
      simp only [List.length_append, List.length_singleton]
      rw [hk1, List.take_succ_cons, List.append_assoc]
      rfl

theorem extractLoop_eq (k L : Nat) (msgs : List Json) :
    ∀ acc : List String, acc.length < k →
      extractLoop k L acc msgs = acc ++ (allAvailableSnippets msgs L).take (k - acc.length) := by
  induction msgs with
  | nil => intro acc h; simp [extractLoop, allAvailableSnippets]
  | cons m ms ih =>
    intro acc h
    simp only [extractLoop]
    rw [addSnippets_eq k (messageSnippets m L) acc h]
    have havail : allAvailableSnippets (m :: ms) L =
        messageSnippets m L ++ allAvailableSnippets ms L := by
      simp [allAvailableSnippets, List.flatMap_cons]
    by_cases h2 : k ≤ (acc ++ (messageSnippets m L).take (k - acc.length)).length
    · rw [if_pos h2]
      simp only [List.length_append, List.length_take] at h2
      have hlen : k - acc.length ≤ (messageSnippets m L).length := by omega
      rw [havail, List.take_append_eq_append_take]
      have h0 : k - acc.length - (messageSnippets m L).length = 0 := by omega
      rw [h0, List.take_zero, List.append_nil]
    · rw [if_neg h2]
      simp only [List.length_append, List.length_take] at h2
      have hlt : (messageSnippets m L).length < k - acc.length := by omega
      have htk : (messageSnippets m L).take (k - acc.length) = messageSnippets m L :=
        List.take_of_length_le (by omega)
      rw [htk]
      rw [ih (acc ++ messageSnippets m L) (by simp; omega)]
      rw [havail, List.take_append_eq_append_take, htk]
      simp only [List.length_append]
      have heq : k - acc.length - (messageSnippets m L).length =
          k - (acc.length + (messageSnippets m L).length) := by omega
      rw [heq, List.append_assoc]

theorem extract_context_take (msgs : List Json) (k L : Nat) (hk : 1 ≤ k) :
    extract_context_from_messages msgs k L = (allAvailableSnippets msgs L).take k := by
  unfold extract_context_from_messages
  rw [extractLoop_eq k L msgs [] (by simpa using hk)]
  simp

/-- C4: for every positive snippet budget `k` the context extractor returns
exactly the first `k` available snippets — hence at most `k`, short-circuiting
as soon as `k` are collected, and strictly fewer than `k` only when the input
holds fewer; and with `k = 0` the postprocessor skips tool-result extraction
entirely, keeping only the explicit context fields. -/
theorem context_extractor_at_most_k (msgs : List Json) (k L : Nat) (item : Json) :
    (1 ≤ k →
      extract_context_from_messages msgs k L = (allAvailableSnippets msgs L).take k ∧
      (extract_context_from_messages msgs k L).length ≤ k ∧
      ((extract_context_from_messages msgs k L).length < k →
        extract_context_from_messages msgs k L = allAvailableSnippets msgs L)) ∧
    ragContextOf item 0 L = collect_context item := by
  constructor
  · intro hk
    have he := extract_context_take msgs k L hk
    refine ⟨he, ?_, ?_⟩
    · rw [he]
      exact List.length_take_le k _
    · intro hlt
      rw [he] at hlt ⊢
      rw [List.length_take] at hlt
      exact List.take_of_length_le (by omega)
  · simp [ragContextOf]

/-- Witness for C4 at `k = 1` on a tool message carrying two text fragments. -/
theorem context_extractor_at_most_k_w :
    1 ≤ 1 ∧
    (extract_context_from_messages [toolResultMsgJson ("kb") [("x"), ("y")]] 1 2000 =
       (allAvailableSnippets [toolResultMsgJson ("kb") [("x"), ("y")]] 2000).take 1 ∧
     (extract_context_from_messages [toolResultMsgJson ("kb") [("x"), ("y")]] 1 2000).length ≤ 1 ∧
     ((extract_context_from_messages [toolResultMsgJson ("kb") [("x"), ("y")]] 1 2000).length < 1 →
       extract_context_from_messages [toolResultMsgJson ("kb") [("x"), ("y")]] 1 2000 =
         allAvailableSnippets [toolResultMsgJson ("kb") [("x"), ("y")]] 2000)) :=
  ⟨le_refl 1,
   (context_extractor_at_most_k [toolResultMsgJson ("kb") [("x"), ("y")]] 1 2000
     Json.null).1 (le_refl 1)⟩


/-- C5: with no file name present, a fragment whose trimmed text has length
`L + 100` is emitted as exactly the first `L` characters of the trimmed text
followed by the fixed ellipsis suffix `"..."`; a fragment whose trimmed text
does not exceed `L` is emitted unmodified.  The third clause lifts the
truncation through the whole context extractor on a tool message wrapping the
fragment. -/
theorem snippet_truncation (s : String) (L : Nat) (fn : Json) :
    (fn.truthy = false → (pyStrip s).length = L + 100 →
      snippetOf fn (fragJson s) L = some (pySlice (pyStrip s) L ++ "...")) ∧
    (fn.truthy = false → s ≠ "" → (pyStrip s).length ≤ L →
      snippetOf fn (fragJson s) L = some (pyStrip s)) ∧
    ((pyStrip s).length = L + 100 →
      extract_context_from_messages [toolResultMsgJson ("") [s]] 1 L =
        [pySlice (pyStrip s) L ++ "..."]) := by
  have hform : ∀ f : Json, snippetOf f (fragJson s) L =
      if s == "" then none
      else some
        (if (if f.truthy then ("[Source: " ++ f.pyStr ++ "]\n" ++ pyStrip s) else pyStrip s).length
              > L
         then pySlice
                (if f.truthy then ("[Source: " ++ f.pyStr ++ "]\n" ++ pyStrip s) else pyStrip s) L
                ++ "..."
         else if f.truthy then ("[Source: " ++ f.pyStr ++ "]\n" ++ pyStrip s) else pyStrip s) :=
    fun f => rfl
  have hgen : ∀ f : Json, f.truthy = false → (pyStrip s).length = L + 100 →
      snippetOf f (fragJson s) L = some (pySlice (pyStrip s) L ++ "...") := by
    intro f hfn htrim
    have hs : (s == "") = false := by
      rw [beq_eq_false_iff_ne]
      intro he
      subst he
      have h0 : (pyStrip ("")).length = 0 := rfl
      omega
    have hgt : (pyStrip s).length > L := by omega
    simp [hform, hs, hfn, hgt]
  refine ⟨hgen fn, ?_, ?_⟩
  · intro hfn hne hle
    have hs : (s == "") = false := by
      rw [beq_eq_false_iff_ne]
      exact hne
    have hng : ¬ (pyStrip s).length > L := by omega
    simp [hform, hs, hfn, hng]
  · intro htrim
    have hsnip : snippetOf (Json.str ("")) (fragJson s) L =
        some (pySlice (pyStrip s) L ++ "...") := hgen (Json.str ("")) rfl htrim
    have havail : allAvailableSnippets [toolResultMsgJson ("") [s]] L =
        [pySlice (pyStrip s) L ++ "..."] := by
      simp [allAvailableSnippets, messageSnippets, partSnippets, resultSnippets,
            toolResultMsgJson, Json.getD, Json.lookup, List.lookup,
            Json.isObj, Json.eqStr, List.filterMap_cons, hsnip]
    rw [extract_context_take _ 1 L (le_refl 1), havail]
    rfl

/-- Witness for C5 on a 101-character text with limit 1. -/
theorem snippet_truncation_w :
    (Json.null.truthy = false ∧ (pyStrip longText).length = 1 + 100) ∧
    snippetOf Json.null (fragJson longText) 1 =
      some (pySlice (pyStrip longText) 1 ++ "...") := by
  have h1 : Json.null.truthy = false := rfl
  have h2 : (pyStrip longText).length = 1 + 100 := by decide
  exact ⟨⟨h1, h2⟩, (snippet_truncation longText 1 Json.null).1 h1 h2⟩

/-! ## Lemmas about explicit context candidates -/

theorem strFilterMap_ne_nil (vs : List Json) (hne : vs ≠ [])
    (h : ∀ v ∈ vs, isStrJson v = true) : vs.filterMap strOnly ≠ [] := by
  cases vs with
  | nil => exact absurd rfl hne
  | cons v rest =>
    have hv := h v (by simp)
    cases v <;> simp_all [isStrJson, strOnly, List.filterMap_cons]

theorem collectLoop_good (cs : List Json) (h : ∀ c ∈ cs, goodCandidate c = true) :
    collectLoop cs =
      match cs.find? Json.truthy with
      | some c => normCand c
      | none => none := by
  induction cs with
  | nil => rfl
  | cons c rest ih =>
    have hgc : goodCandidate c = true := h c (by simp)
    have hrest : ∀ x ∈ rest, goodCandidate x = true :=
      fun x hx => h x (List.mem_cons_of_mem c hx)
    by_cases hc : c.truthy = true
    · rw [List.find?_cons_of_pos _ hc]
      cases c with
      | str s => simp [collectLoop, hc, normCand]
      | arr vs =>
        have hall : ∀ v ∈ vs, isStrJson v = true := by
          simpa [goodCandidate, List.all_eq_true] using hgc
        have hne : vs ≠ [] := by
          intro he
          subst he
          simp [Json.truthy] at hc
        have hcongr : vs.filterMap candidateText = vs.filterMap strOnly := by
          apply List.filterMap_congr
          intro v hv
          have hv2 := hall v hv
          cases v <;> simp_all [isStrJson, candidateText, strOnly]
        have hie : (vs.filterMap strOnly).isEmpty = false := by
          have := strFilterMap_ne_nil vs hne hall
          cases hfm : vs.filterMap strOnly with
          | nil => exact absurd hfm this
          | cons a as => rfl
        simp [collectLoop, hc, normCand, hcongr, hie]
      | null => simp [Json.truthy] at hc
      | bool b => simp_all [goodCandidate, Json.truthy]
      | num n => simp_all [goodCandidate, Json.truthy]
      | obj fs => simp_all [goodCandidate, Json.truthy]
    · rw [List.find?_cons_of_neg _ hc]
      have hcf : c.truthy = false := by
        cases hcv : c.truthy
        · rfl
        · exact absurd hcv hc
      simp [collectLoop, hcf, ih hrest]

theorem take_isEmpty_of_pos {α : Type} (k : Nat) (hk : 1 ≤ k) (l : List α) :
    (l.take k).isEmpty = l.isEmpty := by
  cases l with
  | nil => simp
  | cons a as =>
    cases k with
    | zero => omega
    | succ n => simp [List.take_succ_cons]

theorem two_phase_take {α : Type} (k : Nat) (A B : List α) :
    (if (A.take k).length < k
     then A.take k ++ B.take (k - (A.take k).length)
     else A.take k) = (A ++ B).take k := by
  by_cases hlt : (A.take k).length < k
  · rw [if_pos hlt]
    have hAlt : A.length < k := by
      rw [List.length_take] at hlt
      omega
    have htA : A.take k = A := List.take_of_length_le (by omega)
    rw [List.take_append_eq_append_take, htA]
  · rw [if_neg hlt]
    have hAge : k ≤ A.length := by
      rw [List.length_take] at hlt
      omega
    rw [List.take_append_eq_append_take]
    have h0 : k - A.length = 0 := by omega
    rw [h0, List.take_zero, List.append_nil]

theorem build_eq_take (item : Json) (k L : Nat) (hk : 1 ≤ k) :
    build_context_from_tool_results item k L =
      (if (allAvailableSnippets (queryMessages item) L ++
           allAvailableSnippets (responseMessages item) L).isEmpty = true
       then none
       else some ((allAvailableSnippets (queryMessages item) L ++
                   allAvailableSnippets (responseMessages item) L).take k)) := by
  have h0k : 0 < k := hk
  unfold build_context_from_tool_results queryMessages responseMessages
  cases hqe : item.getD ("query") Json.null
  case arr q =>
    dsimp only
    rw [extract_context_take q k L hk]
    cases hre : item.getD ("response") Json.null
    case arr r =>
      dsimp only
      by_cases hlt : ((allAvailableSnippets q L).take k).length < k
      · rw [if_pos hlt]
        have h1k : 1 ≤ k - ((allAvailableSnippets q L).take k).length := by omega
        rw [extract_context_take r _ L h1k]
        have hfinal := two_phase_take k (allAvailableSnippets q L) (allAvailableSnippets r L)
        rw [if_pos hlt] at hfinal
        rw [hfinal, take_isEmpty_of_pos k hk]
      · rw [if_neg hlt]
        have hfinal := two_phase_take k (allAvailableSnippets q L) (allAvailableSnippets r L)
        rw [if_neg hlt] at hfinal
        rw [hfinal, take_isEmpty_of_pos k hk]
    all_goals simp [allAvailableSnippets, take_isEmpty_of_pos k hk]
  all_goals
    dsimp only
    cases hre : item.getD ("response") Json.null
    case arr r =>
      simp [h0k, allAvailableSnippets, extract_context_take r k L hk,
            take_isEmpty_of_pos k hk]
    all_goals simp [allAvailableSnippets]

/-- C6: for candidates of the shapes the data model describes, the explicit
context fields win over tool-result extraction — the first truthy candidate of
`context`, `retrieved_context`, `evidence`, `citations` (in that order)
determines the context, and tool results are consulted only when every
explicit candidate is falsy and `k > 0`; moreover tool-result extraction
takes the first `k` snippets of the `query` message sequence followed by the
`response` message sequence, so the response sequence contributes only when
the query sequence leaves the budget unfilled. -/
theorem explicit_context_precedence (item : Json) (k L : Nat) :
    ((∀ c ∈ contextCandidates item, goodCandidate c = true) →
      ragContextOf item k L =
        match (contextCandidates item).find? Json.truthy with
        | some c => normCand c
        | none => if 0 < k then build_context_from_tool_results item k L else none) ∧
    (1 ≤ k →
      build_context_from_tool_results item k L =
        (if (allAvailableSnippets (queryMessages item) L ++
             allAvailableSnippets (responseMessages item) L).isEmpty = true
         then none
         else some ((allAvailableSnippets (queryMessages item) L ++
                     allAvailableSnippets (responseMessages item) L).take k))) := by
  constructor
  · intro h
    have hcc : collect_context item = collectLoop (contextCandidates item) := rfl
    unfold ragContextOf
    rw [hcc, collectLoop_good (contextCandidates item) h]
    cases hfind : (contextCandidates item).find? Json.truthy with
    | none =>
      by_cases hk : 0 < k <;> simp [hk]
    | some c =>
      have hct : c.truthy = true := List.find?_some hfind
      have hcg : goodCandidate c = true := h c (List.mem_of_find?_eq_some hfind)
      obtain ⟨l, hl, hie⟩ : ∃ l, normCand c = some l ∧ l.isEmpty = false := by
        cases c with
        | str s => exact ⟨[s], rfl, rfl⟩
        | arr vs =>
          have hall : ∀ v ∈ vs, isStrJson v = true := by
            simpa [goodCandidate, List.all_eq_true] using hcg
          have hne : vs ≠ [] := by
            intro he
            subst he
            simp [Json.truthy] at hct
          refine ⟨vs.filterMap strOnly, rfl, ?_⟩
          have hnn := strFilterMap_ne_nil vs hne hall
          cases hfm : vs.filterMap strOnly with
          | nil => exact absurd hfm hnn
          | cons a as => rfl
        | null => simp [Json.truthy] at hct
        | bool b => simp_all [goodCandidate, Json.truthy]
        | num n => simp_all [goodCandidate, Json.truthy]
        | obj fs => simp_all [goodCandidate, Json.truthy]
      simp [hl, hie]
  · intro hk
    exact build_eq_take item k L hk

/-- Witness for C6 on a record whose `context` field is the string `ctx`,
with `k = 3`. -/
theorem explicit_context_precedence_w :
    (∀ c ∈ contextCandidates ctxItemJson, goodCandidate c = true) ∧
    ragContextOf ctxItemJson 3 5 =
      (match (contextCandidates ctxItemJson).find? Json.truthy with
       | some c => normCand c
       | none => if 0 < 3 then build_context_from_tool_results ctxItemJson 3 5 else none) ∧
    1 ≤ 3 ∧
    build_context_from_tool_results ctxItemJson 3 5 =
      (if (allAvailableSnippets (queryMessages ctxItemJson) 5 ++
           allAvailableSnippets (responseMessages ctxItemJson) 5).isEmpty = true
       then none
       else some ((allAvailableSnippets (queryMessages ctxItemJson) 5 ++
                   allAvailableSnippets (responseMessages ctxItemJson) 5).take 3)) := by
  have hgood : ∀ c ∈ contextCandidates ctxItemJson, goodCandidate c = true := by
    intro c hc
    have hlist : contextCandidates ctxItemJson =
        [Json.str ("ctx"), Json.null, Json.null, Json.null] := rfl
    rw [hlist] at hc
    simp only [List.mem_cons, List.not_mem_nil, or_false] at hc
    rcases hc with h | h | h | h <;> subst h <;> rfl
  have h3 : (1 : Nat) ≤ 3 := by omega
  exact ⟨hgood, (explicit_context_precedence ctxItemJson 3 5).1 hgood, h3,
         (explicit_context_precedence ctxItemJson 3 5).2 h3⟩

/-! ## Lemmas about the agent row fields -/

theorem some_of_if_isEmpty {α : Type} (c l : List α)
    (h : (if c.isEmpty = true then none else some c) = some l) : l.isEmpty = false := by
  split at h
  next hemp => exact Option.noConfusion h
  next hemp =>
    injection h with h2
    subst h2
    simpa using hemp

theorem slim_defs_not_empty (item : Json) (l : List Json)
    (h : slim_tool_definitions item = some l) : l.isEmpty = false := by
  unfold slim_tool_definitions at h
  split at h
  · exact some_of_if_isEmpty _ l h
  · exact Option.noConfusion h

theorem slim_calls_not_empty (item : Json) (l : List Json)
    (h : slim_tool_calls item = some l) : l.isEmpty = false := by
  unfold slim_tool_calls at h
  split at h
  · exact some_of_if_isEmpty _ l h
  · exact Option.noConfusion h

theorem optField_isEmpty (key : String) (o : Option Json) :
    (optField key o).isEmpty = !o.isSome := by
  cases o <;> rfl

theorem toolDefsField_isEmpty (item : Json) :
    (toolDefsField item).isEmpty = !(slim_tool_definitions item).isSome := by
  unfold toolDefsField
  cases hd : slim_tool_definitions item with
  | none => rfl
  | some l =>
    have hl := slim_defs_not_empty item l hd
    dsimp only
    rw [hl]
    rfl

theorem toolCallsField_isEmpty (item : Json) :
    (toolCallsField item).isEmpty = !(slim_tool_calls item).isSome := by
  unfold toolCallsField
  cases hd : slim_tool_calls item with
  | none => rfl
  | some l =>
    have hl := slim_calls_not_empty item l hd
    dsimp only
    rw [hl]
    rfl

theorem isEmpty_append_pair {α : Type} (l1 l2 : List α) :
    (l1 ++ l2).isEmpty = (l1.isEmpty && l2.isEmpty) := by
  cases l1 <;> cases l2 <;> rfl

theorem isSome_ite_isEmpty {α β : Type} (l : List α) (x : β) :
    (if l.isEmpty = true then (none : Option β) else some x).isSome = !l.isEmpty := by
  cases hl : l.isEmpty <;> simp [hl]

/-- C3 counterexample: a record holding only tool definitions — no query and
no response text — contributes no General Q&A row, yet does contribute an
agent row carrying the slimmed tool definitions. -/
theorem agent_row_without_query_cex :
    (processItem toolDefsOnlyItem 3 2000).general = none ∧
    (processItem toolDefsOnlyItem 3 2000).agent =
      some (Json.obj [(("tool_definitions"),
        Json.arr [Json.obj [(("name"), Json.str ("lookup"))]])]) := by
  constructor <;> rfl

/-- C3 (amended): a record contributes an agent row exactly when the agent
row object is non-empty — when an extracted query or response is present
(not `None`), or the slimmed tool definitions are non-empty, or the slimmed
tool calls are non-empty; a record with none of these contributes no agent
row.  (The General Q&A condition additionally requires the query or response
text to be truthy, so the two conditions differ.) -/
theorem agent_row_condition (item : Json) (k L : Nat) :
    (processItem item k L).agent.isSome =
      ((queryOf item).isSome || (final_assistant_response item).isSome ||
       (slim_tool_definitions item).isSome || (slim_tool_calls item).isSome) := by
  unfold processItem
  dsimp only
  rw [isSome_ite_isEmpty]
  rw [isEmpty_append_pair, isEmpty_append_pair]
  unfold baseFields
  rw [isEmpty_append_pair, optField_isEmpty, optField_isEmpty,
      toolDefsField_isEmpty, toolCallsField_isEmpty]
  generalize (queryOf item).isSome = a
  generalize (final_assistant_response item).isSome = b
  generalize (slim_tool_definitions item).isSome = c
  generalize (slim_tool_calls item).isSome = d
  cases a <;> cases b <;> cases c <;> cases d <;> rfl

/-- C9: a response-completeness row is emitted exactly when the ground-truth
resolution (`ground_truth`, else `reference_answer`, first truthy value,
strings only) yields a non-empty string and a truthy response is present; in
particular a record carrying neither the `ground_truth` nor the
`reference_answer` key never contributes a response-completeness row. -/
theorem respcomp_condition (item : Json) (k L : Nat) :
    ((item.lookup ("ground_truth") = none ∧ item.lookup ("reference_answer") = none) →
      (processItem item k L).respcomp = none) ∧
    ((processItem item k L).respcomp.isSome = true ↔
      (∃ s : String, get_ground_truth item = some s ∧ s ≠ "") ∧
      optTruthy (final_assistant_response item) = true) := by
  constructor
  · rintro ⟨h1, h2⟩
    have hgt : get_ground_truth item = none := by
      unfold get_ground_truth Json.pyOr Json.getD
      rw [h1, h2]
      rfl
    unfold processItem
    dsimp only
    rw [hgt]
  · unfold processItem
    dsimp only
    cases hgt : get_ground_truth item with
    | none =>
      cases hr : final_assistant_response item <;> simp
    | some gt =>
      cases hr : final_assistant_response item with
      | none => simp [optTruthy]
      | some r =>
        cases hrt : r.truthy with
        | false => simp [optTruthy, hrt]
        | true =>
          by_cases hne : gt = ""
          · subst hne
            simp [optTruthy, hrt]
          · have hb : (gt != "") = true := by simp [hne]
            simp [optTruthy, hrt, hb, hne]

/-- Witness for C9: a record holding only a response string has neither
ground-truth key and contributes no response-completeness row. -/
theorem respcomp_condition_w :
    (respOnlyItem.lookup ("ground_truth") = none ∧
     respOnlyItem.lookup ("reference_answer") = none) ∧
    (processItem respOnlyItem 3 2000).respcomp = none := by
  have h : respOnlyItem.lookup ("ground_truth") = none ∧
      respOnlyItem.lookup ("reference_answer") = none := ⟨rfl, rfl⟩
  exact ⟨h, (respcomp_condition respOnlyItem 3 2000).1 h⟩

/-- C10: when the extracted query text is falsy and the `query`
field is a dict, every row the record contributes — in all five views —
carries the JSON serialization of that dict as its `query` value. -/
theorem dict_query_serialized (item : Json) (k L : Nat)
    (h1 : optTruthy (last_user_query item) = false)
    (h2 : (item.getD ("query") .null).isObj = true) :
    (∀ row, (processItem item k L).general = some row →
      row.lookup ("query") = some (.str (item.getD ("query") .null).dumps)) ∧
    (∀ row, (processItem item k L).agent = some row →
      row.lookup ("query") = some (.str (item.getD ("query") .null).dumps)) ∧
    (∀ row, (processItem item k L).rag = some row →
      row.lookup ("query") = some (.str (item.getD ("query") .null).dumps)) ∧
    (∀ row, (processItem item k L).docret = some row →
      row.lookup ("query") = some (.str (item.getD ("query") .null).dumps)) ∧
    (∀ row, (processItem item k L).respcomp = some row →
      row.lookup ("query") = some (.str (item.getD ("query") .null).dumps)) := by
  have hq : queryOf item = some (.str (item.getD ("query") .null).dumps) := by
    unfold queryOf
    dsimp only
    rw [h1, h2]
    rfl
  have hbase : baseFields item =
      (("query"), Json.str (item.getD ("query") Json.null).dumps) ::
        optField ("response") (final_assistant_response item) := by
    unfold baseFields
    rw [hq]
    rfl
  have hlookup : ∀ rest : List (String × Json),
      Json.lookup (Json.obj
        ((("query"), Json.str (item.getD ("query") Json.null).dumps) :: rest)) ("query") =
      some (Json.str (item.getD ("query") Json.null).dumps) := fun rest => rfl
  refine ⟨?_, ?_, ?_, ?_, ?_⟩
  · intro row hrow
    unfold processItem at hrow
    dsimp only at hrow
    split at hrow
    · injection hrow with he
      subst he
      rw [hbase]
      exact hlookup _
    · exact Option.noConfusion hrow
  · intro row hrow
    unfold processItem at hrow
    dsimp only at hrow
    split at hrow
    · exact Option.noConfusion hrow
    · injection hrow with he
      subst he
      rw [hbase]
      simp only [List.cons_append]
      exact hlookup _
  · intro row hrow
    unfold processItem at hrow
    dsimp only at hrow
    rw [hq] at hrow
    cases hctx : ragContextOf item k L with
    | none =>
      rw [hctx] at hrow
      exact Option.noConfusion hrow
    | some ctx =>
      rw [hctx] at hrow
      cases hresp : final_assistant_response item with
      | none =>
        rw [hresp] at hrow
        exact Option.noConfusion hrow
      | some r =>
        rw [hresp] at hrow
        have hrow2 : (if (!ctx.isEmpty &&
              (Json.str (item.getD ("query") Json.null).dumps).truthy && r.truthy) = true
            then some (Json.obj
              [(("query"), Json.str (item.getD ("query") Json.null).dumps),
               (("response"), r),
               (("context"), Json.arr (ctx.map Json.str))])
            else none) = some row := hrow
        split at hrow2
        · injection hrow2 with he
          subst he
          exact hlookup _
        · exact Option.noConfusion hrow2
  · intro row hrow
    unfold processItem at hrow
    dsimp only at hrow
    cases hdr : get_doc_gt_and_retrieved item with
    | none =>
      rw [hdr] at hrow
      exact Option.noConfusion hrow
    | some dr =>
      rw [hdr, hq] at hrow
      injection hrow with he
      subst he
      exact hlookup _
  · intro row hrow
    unfold processItem at hrow
    dsimp only at hrow
    cases hgt : get_ground_truth item with
    | none =>
      rw [hgt] at hrow
      exact Option.noConfusion hrow
    | some gt =>
      rw [hgt] at hrow
      cases hresp : final_assistant_response item with
      | none =>
        rw [hresp] at hrow
        exact Option.noConfusion hrow
      | some r =>
        rw [hresp, hq] at hrow
        have hrow2 : (if (gt != "" && r.truthy) = true
            then some (Json.obj
              [(("query"), Json.str (item.getD ("query") Json.null).dumps),
               (("response"), r),
               (("ground_truth"), Json.str gt)])
            else none) = some row := hrow
        split at hrow2
        · injection hrow2 with he
          subst he
          exact hlookup _
        · exact Option.noConfusion hrow2

/-- Witness for C10 on a record whose `query` field is the dict with the
single pair `a : b`. -/
theorem dict_query_serialized_w :
    optTruthy (last_user_query dictQueryItem) = false ∧
    (dictQueryItem.getD ("query") .null).isObj = true ∧
    (∀ row, (processItem dictQueryItem 3 2000).general = some row →
      row.lookup ("query") = some (.str (dictQueryItem.getD ("query") .null).dumps)) := by
  refine ⟨rfl, rfl, ?_⟩
  exact (dict_query_serialized dictQueryItem 3 2000 rfl rfl).1
